import Mathlib

/-!
Verification of the Aave vault rebalancer client against its specification.

The development shallowly embeds the code that the claims are about:

* the chain registry (`CONTRACT_ADDRESSES`, `getContractAddress`, `getUSDCAddress`);
* the allocation aggregator (`getVaultBalance`, `fetchAllocationData` from
  `useAllocationData`), parametric in the configured networks and in the
  per-chain read results;
* the balance reconciler (the `userVaultValue` / `sharePrice` computation of
  `usePerformanceData`), over exact rational arithmetic;
* the amount sanitizer (`sanitizeAmountInput`, `isValidAmount`);
* the deposit orchestrator of `BalanceFigma` as an event-driven transition
  system: the handlers (`handleInitiateDeposit`, `handleApproveUSDC`,
  `handleConfirmDeposit`, `handleRetry`) together with the two `useEffect`
  blocks that react to wallet write results and transaction receipts.

Machine integers (`bigint` / `uint256`) are modelled as `Nat`; JavaScript
float arithmetic in the reconciler is modelled as exact `ℚ` arithmetic.
-/

/-! ## Chain registry (`src/utils/contracts.ts`) -/

structure ContractAddressTable where
  localhost : String
  ethereum : String
  baseSepolia : String
  arbitrumSepolia : String
  optimismSepolia : String
deriving DecidableEq, Repr

def CONTRACT_ADDRESSES : ContractAddressTable where
  localhost := "0x610178dA211FEF7D417bC0e6FeD39F05609AD788"
  ethereum := "0x87870Bca3F3fD6335C3F4ce8392D69350B4fA4E2"
  baseSepolia := "0x773035EABdA16B5416B26E12156483C6B6F56451"
  arbitrumSepolia := "0xE168d95f8d1B8EC167A63c8E696076EC8EE95337"
  optimismSepolia := ""

def USDC_ADDRESSES : ContractAddressTable where
  localhost := "0x16f18Ee01365Ef23E0564dfB635215A5B4Eaa3c4"
  ethereum := "0xA0b86a33E6441E43941295AaE15D29a6E6e98959"
  baseSepolia := "0x036CbD53842c5426634e7929541eC2318f3dCF7e"
  arbitrumSepolia := "0x75faf114eafb1BDbe2F0316DF893fd58CE46AA4d"
  optimismSepolia := "0x5fd84259d66Cd46123540766Be93DFE6D43130D7"

/-- The chain ids with a dedicated (non-default) case in the registry's
switch dispatch. -/
def supportedChainIds : List Nat := [31337, 1, 84532, 421614, 11155420]

/-- `getContractAddress`: JavaScript throwing is modelled as `Except.error`.
The source checks the address for falsiness (the empty string) on the two
Sepolia chains before returning it. -/
def getContractAddress (chainId : Nat) : Except String String :=
  if chainId = 31337 then Except.ok CONTRACT_ADDRESSES.localhost
  else if chainId = 1 then Except.ok CONTRACT_ADDRESSES.ethereum
  else if chainId = 84532 then Except.ok CONTRACT_ADDRESSES.baseSepolia
  else if chainId = 421614 then
    if CONTRACT_ADDRESSES.arbitrumSepolia = "" then
      Except.error ("AAVE Vault not yet deployed on Arbitrum Sepolia. Coming soon!")
    else Except.ok CONTRACT_ADDRESSES.arbitrumSepolia
  else if chainId = 11155420 then
    if CONTRACT_ADDRESSES.optimismSepolia = "" then
      Except.error ("AAVE Vault not yet deployed on Optimism Sepolia. Coming soon!")
    else Except.ok CONTRACT_ADDRESSES.optimismSepolia
  else Except.error ("Unsupported chain ID")

/-- `getUSDCAddress`: no emptiness checks, only the default case throws. -/
def getUSDCAddress (chainId : Nat) : Except String String :=
  if chainId = 31337 then Except.ok USDC_ADDRESSES.localhost
  else if chainId = 1 then Except.ok USDC_ADDRESSES.ethereum
  else if chainId = 84532 then Except.ok USDC_ADDRESSES.baseSepolia
  else if chainId = 421614 then Except.ok USDC_ADDRESSES.arbitrumSepolia
  else if chainId = 11155420 then Except.ok USDC_ADDRESSES.optimismSepolia
  else Except.error ("Unsupported chain ID")

/-! ## Balance reconciler (`usePerformanceData`, part_002 lines 589-607)

The hook computes `userVaultValue` and `sharePrice` from the user's share
balance and the vault's total assets and total supply.  The JavaScript
numbers are modelled as exact rationals. -/

/-- The reconciliation of `usePerformanceData`: returns
`(userVaultValue, sharePrice)`.  The source initializes `userVaultValue = 0`
and `sharePrice = 1.0`, overwrites both when shares, total assets and total
supply are all positive, and overwrites only the value (with the share
count, a 1:1 fallback) when merely the shares are positive. -/
def reconcile (shares totalAssets totalSupply : ℚ) : ℚ × ℚ :=
  if 0 < shares ∧ 0 < totalAssets ∧ 0 < totalSupply then
    (shares * totalAssets / totalSupply, totalAssets / totalSupply)
  else if 0 < shares then
    (shares, 1)
  else
    (0, 1)

/-- The share-price formula as the specification words it:
`totalAssets / totalSupply` when `totalSupply > 0`, else `1`. -/
def sharePriceSpec (totalAssets totalSupply : ℚ) : ℚ :=
  if 0 < totalSupply then totalAssets / totalSupply else 1

/-! ## Allocation aggregator (`useAllocationData`, part_002 lines 18-246)

`fetchAllocationData` reads `totalAssets` from the vault on every configured
chain in parallel, sums the raw balances with bigint arithmetic and computes
`Number((balance * 100n) / totalRaw)` per network.  The embedding is
parametric in the configured networks and in an environment
`env : Nat → Option Nat` giving, per chain id, the balance read result
(`none` models a read that throws).  Presentation-only fields of the source
(`icon`, `apy`, `color`, `rpcUrl`, `viemChain`) carry no logic and are
omitted. -/

structure ChainConfig where
  chainId : Nat
  name : String
  vaultAddress : Option String
deriving DecidableEq, Repr

structure BalanceResult where
  chainId : Nat
  balance : Nat
deriving DecidableEq, Repr

structure AllocationItem where
  name : String
  allocation : Nat
deriving DecidableEq, Repr

/-- The four entries of `CHAIN_CONFIGS`; only Arbitrum Sepolia has a
deployed vault. -/
def CHAIN_CONFIGS : List ChainConfig :=
  [⟨421614, "Arbitrum Sepolia", some "0xE168d95f8d1B8EC167A63c8E696076EC8EE95337"⟩,
   ⟨84532, "Base Sepolia", none⟩,
   ⟨11155420, "Optimism Sepolia", none⟩,
   ⟨11155111, "Ethereum Sepolia", none⟩]

/-- `getVaultBalance`: a network without a deployed vault returns balance
`0n` immediately, and a read that throws is caught and also yields `0n`. -/
def getVaultBalance (config : ChainConfig) (env : Nat → Option Nat) : BalanceResult :=
  match config.vaultAddress with
  | none => ⟨config.chainId, 0⟩
  | some _ =>
    match env config.chainId with
    | none => ⟨config.chainId, 0⟩
    | some b => ⟨config.chainId, b⟩

/-- `const balanceResults = await Promise.all(CHAIN_CONFIGS.map(getVaultBalance))`. -/
def balanceResults (configs : List ChainConfig) (env : Nat → Option Nat) : List BalanceResult :=
  configs.map (getVaultBalance · env)

/-- `balanceResults.reduce((sum, result) => sum + result.balance, 0n)`. -/
def totalRaw (configs : List ChainConfig) (env : Nat → Option Nat) : Nat :=
  (balanceResults configs env).foldl (fun sum r => sum + r.balance) 0

/-- The balance attached to a network's entry:
`balanceResults.find(r => r.chainId === config.chainId)?.balance || 0n`. -/
def entryBalance (configs : List ChainConfig) (env : Nat → Option Nat)
    (config : ChainConfig) : Nat :=
  (((balanceResults configs env).find? (fun r => r.chainId = config.chainId)).map
    (·.balance)).getD 0

/-- The unsorted allocation entries, one per configured network:
`allocationPercent = totalRaw > 0n ? Number((balance * 100n) / totalRaw) : 0`. -/
def allocationItems (configs : List ChainConfig) (env : Nat → Option Nat) :
    List AllocationItem :=
  configs.map fun config =>
    let balance := entryBalance configs env config
    let pct := if 0 < totalRaw configs env then balance * 100 / totalRaw configs env else 0
    ⟨config.name, pct⟩

/-- `allocationItems.sort((a, b) => b.allocation - a.allocation)`: the stable
descending sort by allocation (a stable sort inserts after existing equal
keys, hence the strict comparison). -/
def aggregate (configs : List ChainConfig) (env : Nat → Option Nat) :
    List AllocationItem :=
  List.insertionSort (fun a b => b.allocation < a.allocation) (allocationItems configs env)

/-- Sum of the displayed percentages of an aggregation result. -/
def sumAlloc (items : List AllocationItem) : Nat :=
  (items.map (·.allocation)).sum

/-! ### Aggregator lemmas -/

theorem balanceResults_chainId (env : Nat → Option Nat)
    (c : ChainConfig) : (getVaultBalance c env).chainId = c.chainId := by
  unfold getVaultBalance
  cases c.vaultAddress with
  | none => rfl
  | some a => cases env c.chainId <;> rfl

theorem find_getVaultBalance (env : Nat → Option Nat) (c : ChainConfig) :
    ∀ (ds : List ChainConfig), (ds.map (·.chainId)).Nodup → c ∈ ds →
    (ds.map (getVaultBalance · env)).find? (fun r => r.chainId = c.chainId)
      = some (getVaultBalance c env) := by
  intro ds
  induction ds with
  | nil => intro _ hc; cases hc
  | cons d ds ih =>
    intro hnd hc
    simp only [List.map_cons, List.nodup_cons] at hnd
    by_cases hdc : d.chainId = c.chainId
    · have hdceq : d = c := by
        rcases List.mem_cons.mp hc with h | h
        · exact h.symm
        · exact absurd (hdc ▸ List.mem_map_of_mem (·.chainId) h) hnd.1
      subst hdceq
      rw [List.map_cons, List.find?_cons_of_pos]
      simp [balanceResults_chainId]
    · have hcmem : c ∈ ds := by
        rcases List.mem_cons.mp hc with h | h
        · exact absurd (congrArg (·.chainId) h.symm) hdc
        · exact h
      rw [List.map_cons, List.find?_cons_of_neg, ih hnd.2 hcmem]
      simp [balanceResults_chainId, hdc]

/-- With pairwise distinct chain ids, the `find` in the entry construction
recovers exactly that network's own read result. -/
theorem entryBalance_eq_of_nodup (configs : List ChainConfig) (env : Nat → Option Nat)
    (hnd : (configs.map (·.chainId)).Nodup) (c : ChainConfig) (hc : c ∈ configs) :
    entryBalance configs env c = (getVaultBalance c env).balance := by
  unfold entryBalance balanceResults
  rw [find_getVaultBalance env c configs hnd hc]
  rfl

theorem foldl_add_balance (l : List BalanceResult) (n : Nat) :
    l.foldl (fun sum r => sum + r.balance) n = n + (l.map (·.balance)).sum := by
  induction l generalizing n with
  | nil => simp
  | cons r rs ih => simp [ih, Nat.add_assoc]

theorem totalRaw_eq_sum (configs : List ChainConfig) (env : Nat → Option Nat) :
    totalRaw configs env = (configs.map (fun c => (getVaultBalance c env).balance)).sum := by
  unfold totalRaw balanceResults
  rw [foldl_add_balance, Nat.zero_add, List.map_map]
  rfl

theorem sum_div_le (xs : List Nat) (t : Nat) :
    (xs.map (· / t)).sum ≤ xs.sum / t := by
  induction xs with
  | nil => simp
  | cons x xs ih =>
    simp only [List.map_cons, List.sum_cons]
    calc x / t + (xs.map (· / t)).sum ≤ x / t + xs.sum / t := Nat.add_le_add_left ih _
      _ ≤ (x + xs.sum) / t := Nat.add_div_le_add_div x xs.sum t

/-- Under distinct chain ids the unsorted pass result is literally one entry
per configured network carrying `balance * 100 / total` (or `0`). -/
theorem allocationItems_eq (configs : List ChainConfig) (env : Nat → Option Nat)
    (hnd : (configs.map (·.chainId)).Nodup) :
    allocationItems configs env = configs.map (fun c =>
      ⟨c.name, if 0 < totalRaw configs env
               then (getVaultBalance c env).balance * 100 / totalRaw configs env
               else 0⟩) := by
  unfold allocationItems
  exact List.map_congr_left fun c hc => by
    rw [entryBalance_eq_of_nodup configs env hnd c hc]

theorem sumAlloc_aggregate (configs : List ChainConfig) (env : Nat → Option Nat) :
    sumAlloc (aggregate configs env) = sumAlloc (allocationItems configs env) := by
  unfold sumAlloc aggregate
  exact ((List.perm_insertionSort (fun a b => b.allocation < a.allocation)
    (allocationItems configs env)).map (·.allocation)).sum_eq

theorem length_aggregate (configs : List ChainConfig) (env : Nat → Option Nat) :
    (aggregate configs env).length = configs.length := by
  unfold aggregate
  rw [(List.perm_insertionSort (fun a b => b.allocation < a.allocation)
    (allocationItems configs env)).length_eq]
  unfold allocationItems
  exact List.length_map _ _

theorem mem_aggregate_iff (configs : List ChainConfig) (env : Nat → Option Nat)
    (e : AllocationItem) :
    e ∈ aggregate configs env ↔ e ∈ allocationItems configs env :=
  (List.perm_insertionSort (fun a b => b.allocation < a.allocation)
    (allocationItems configs env)).mem_iff

theorem sumAlloc_le_100 (configs : List ChainConfig) (env : Nat → Option Nat)
    (hnd : (configs.map (·.chainId)).Nodup) (hT : 0 < totalRaw configs env) :
    sumAlloc (aggregate configs env) ≤ 100 := by
  rw [sumAlloc_aggregate, sumAlloc, allocationItems_eq configs env hnd]
  rw [List.map_map]
  have hmap : ((fun e : AllocationItem => e.allocation) ∘ fun c : ChainConfig =>
      (⟨c.name, if 0 < totalRaw configs env
                then (getVaultBalance c env).balance * 100 / totalRaw configs env
                else 0⟩ : AllocationItem))
      = fun c : ChainConfig => (getVaultBalance c env).balance * 100 / totalRaw configs env := by
    funext c
    simp [hT]
  rw [hmap]
  have h1 : (configs.map fun c => (getVaultBalance c env).balance * 100 / totalRaw configs env)
      = ((configs.map fun c => (getVaultBalance c env).balance * 100).map
          (· / totalRaw configs env)) := by
    rw [List.map_map]; rfl
  rw [h1]
  calc ((configs.map fun c => (getVaultBalance c env).balance * 100).map
          (· / totalRaw configs env)).sum
      ≤ (configs.map fun c => (getVaultBalance c env).balance * 100).sum
          / totalRaw configs env := sum_div_le _ _
    _ = (configs.map fun c => (getVaultBalance c env).balance).sum * 100
          / totalRaw configs env := by
        rw [List.sum_map_mul_right]
    _ = totalRaw configs env * 100 / totalRaw configs env := by
        rw [totalRaw_eq_sum]
    _ = 100 := Nat.mul_div_cancel_left 100 hT

/-! ### Concrete aggregator scenarios -/

/-- Three networks, all deployed, each holding one raw unit. -/
def cfgsEqualThirds : List ChainConfig :=
  [⟨1, "A", some "0xa"⟩, ⟨2, "B", some "0xb"⟩, ⟨3, "C", some "0xc"⟩]

def envAllOnes : Nat → Option Nat := fun _ => some 1

/-- Four networks, all deployed, raw balances 999, 1, 0, 0. -/
def cfgsDominant : List ChainConfig :=
  [⟨1, "A", some "0xa"⟩, ⟨2, "B", some "0xb"⟩, ⟨3, "C", some "0xc"⟩, ⟨4, "D", some "0xd"⟩]

def envDominant : Nat → Option Nat := fun id =>
  if id = 1 then some 999 else if id = 2 then some 1 else some 0

/-- An environment where only the Arbitrum Sepolia read succeeds. -/
def envArbOnly : Nat → Option Nat := fun id =>
  if id = 421614 then some 300 else none

/-! ### Claim C1 -/

/-- C1, counterexample.  With three configured networks holding one raw unit
each, the total is positive but the floored percentages are 33 + 33 + 33 =
99, not exactly 100: the aggregation pass does not make percentages sum to
100 whenever the total raw balance is positive. -/
theorem c1_sum_not_exactly_100 :
    0 < totalRaw cfgsEqualThirds envAllOnes
    ∧ sumAlloc (aggregate cfgsEqualThirds envAllOnes) = 99 := by
  constructor
  · decide
  · decide

/-- C1, amended.  For every configured set of networks (distinct chain ids),
the aggregation pass produces exactly one allocation entry per configured
network; a network whose balance read fails or whose vault is not deployed
contributes a raw balance of zero rather than aborting the pass; the
percentages over all entries sum to at most 100 whenever the total raw
balance is positive; and every percentage is 0 when the total raw balance
is zero. -/
theorem c1_allocation_entries (configs : List ChainConfig) (env : Nat → Option Nat)
    (hnd : (configs.map (·.chainId)).Nodup) :
    (aggregate configs env).length = configs.length
    ∧ (∀ c ∈ configs, (c.vaultAddress = none ∨ env c.chainId = none) →
        entryBalance configs env c = 0)
    ∧ (0 < totalRaw configs env → sumAlloc (aggregate configs env) ≤ 100)
    ∧ (totalRaw configs env = 0 → ∀ e ∈ aggregate configs env, e.allocation = 0) := by
  refine ⟨length_aggregate configs env, ?_, sumAlloc_le_100 configs env hnd, ?_⟩
  · intro c hc hfail
    rw [entryBalance_eq_of_nodup configs env hnd c hc]
    unfold getVaultBalance
    rcases hfail with h | h
    · rw [h]
    · cases hva : c.vaultAddress with
      | none => rfl
      | some a => rw [h]
  · intro hT e he
    rw [mem_aggregate_iff, allocationItems_eq configs env hnd] at he
    rcases List.mem_map.mp he with ⟨c, _, hce⟩
    rw [← hce]
    simp [hT]

/-- C1 witness: the real `CHAIN_CONFIGS` under an environment where only the
Arbitrum Sepolia read succeeds (300 raw units): four entries, positive
total, percentages summing to at most 100. -/
theorem c1_allocation_entries_witness :
    ((CHAIN_CONFIGS.map (·.chainId)).Nodup ∧ 0 < totalRaw CHAIN_CONFIGS envArbOnly)
    ∧ ((aggregate CHAIN_CONFIGS envArbOnly).length = CHAIN_CONFIGS.length
        ∧ sumAlloc (aggregate CHAIN_CONFIGS envArbOnly) ≤ 100) := by
  refine ⟨⟨by decide, by decide⟩, ?_, ?_⟩
  · exact (c1_allocation_entries CHAIN_CONFIGS envArbOnly (by decide)).1
  · exact (c1_allocation_entries CHAIN_CONFIGS envArbOnly (by decide)).2.2.1 (by decide)

/-! ### Claim C5 -/

/-- C5.  With positive total `T`, each allocation entry's percentage is
exactly `floor(balance * 100 / T)` computed with integer division, and in
particular raw balances 999, 1, 0, 0 (total 1000) yield the percentages
99, 0, 0, 0 — not 100, 0, 0, 0. -/
theorem c5_percentage_floor :
    (∀ (configs : List ChainConfig) (env : Nat → Option Nat),
      (configs.map (·.chainId)).Nodup → 0 < totalRaw configs env →
      allocationItems configs env = configs.map (fun c =>
        ⟨c.name, (getVaultBalance c env).balance * 100 / totalRaw configs env⟩))
    ∧ (aggregate cfgsDominant envDominant).map (·.allocation) = [99, 0, 0, 0] := by
  constructor
  · intro configs env hnd hT
    rw [allocationItems_eq configs env hnd]
    exact List.map_congr_left fun c _ => by simp [hT]
  · decide

/-- C5 witness: the floored-percentage formula evaluated on the dominant
scenario gives entries 99, 0, 0, 0 for the four networks. -/
theorem c5_percentage_floor_witness :
    ((cfgsDominant.map (·.chainId)).Nodup ∧ 0 < totalRaw cfgsDominant envDominant)
    ∧ allocationItems cfgsDominant envDominant =
        [⟨"A", 99⟩, ⟨"B", 0⟩, ⟨"C", 0⟩, ⟨"D", 0⟩] := by
  refine ⟨⟨by decide, by decide⟩, ?_⟩
  rw [c5_percentage_floor.1 cfgsDominant envDominant (by decide) (by decide)]
  decide

/-! ### Claim C8 -/

/-- C8, counterexample.  With zero shares but positive total supply, the
code leaves the share price at its fallback 1 (the positive branch also
requires positive shares), while the claimed formula
`totalAssets / totalSupply` gives 2. -/
theorem c8_sharePrice_not_spec :
    (reconcile 0 2 1).2 = 1
    ∧ sharePriceSpec 2 1 = 2
    ∧ (reconcile 0 2 1).2 ≠ sharePriceSpec 2 1 := by
  refine ⟨?_, ?_, ?_⟩ <;> norm_num [reconcile, sharePriceSpec]

/-- C8, amended.  The reconciliation returns
`sharePrice = totalAssets / totalSupply` when shares, totalAssets and
totalSupply are all positive and otherwise 1; `depositedValue` equals
`shares * totalAssets / totalSupply` when totalAssets and totalSupply are
both positive and otherwise equals `shares`; in particular zero shares give
depositedValue 0, and shares 100 with zero totals give depositedValue 100. -/
theorem c8_reconcile (shares totalAssets totalSupply : ℚ) (hsh : 0 ≤ shares) :
    (reconcile shares totalAssets totalSupply).1 =
      (if 0 < totalAssets ∧ 0 < totalSupply
       then shares * totalAssets / totalSupply else shares)
    ∧ (reconcile shares totalAssets totalSupply).2 =
      (if 0 < shares ∧ 0 < totalAssets ∧ 0 < totalSupply
       then totalAssets / totalSupply else 1)
    ∧ (reconcile 0 totalAssets totalSupply).1 = 0
    ∧ (reconcile 100 0 0).1 = 100 := by
  refine ⟨?_, ?_, by norm_num [reconcile], by norm_num [reconcile]⟩
  · rcases lt_or_eq_of_le hsh with hpos | hzero
    · by_cases hts : 0 < totalAssets ∧ 0 < totalSupply
      · simp [reconcile, hpos, hts]
      · simp [reconcile, hpos, hts]
    · rw [← hzero]
      by_cases hts : 0 < totalAssets ∧ 0 < totalSupply
      · simp [reconcile, hts]
      · simp [reconcile, hts]
  · by_cases hall : 0 < shares ∧ 0 < totalAssets ∧ 0 < totalSupply
    · simp [reconcile, hall]
    · by_cases hts : 0 < totalAssets ∧ 0 < totalSupply
      · have hshz : ¬ 0 < shares := fun hpos => hall ⟨hpos, hts⟩
        simp [reconcile, hall, hshz, hts]
      · by_cases hpos : 0 < shares
        · simp [reconcile, hall, hpos, hts]
        · simp [reconcile, hall, hpos, hts]

/-- C8 witness: the amended statement applied at shares 100, zero totals. -/
theorem c8_reconcile_witness :
    ((0:ℚ) ≤ 100) ∧ (reconcile 100 0 0).1 = 100 :=
  ⟨by norm_num, (c8_reconcile 100 0 0 (by norm_num)).2.2.2⟩

/-! ### Claim C10 -/

/-- C10.  For chain id 11155420 (Optimism Sepolia), resolving the vault
contract address always fails — the configured vault address is the empty
string, detected before any network call — while resolving the USDC asset
address for the same chain id returns a nonempty address, even though the
id is among the registry's supported-chain dispatch cases; hence no deposit
or withdraw write can ever be constructed for that chain. -/
theorem c10_optimismSepolia_vault_unresolvable :
    getContractAddress 11155420 =
      Except.error ("AAVE Vault not yet deployed on Optimism Sepolia. Coming soon!")
    ∧ getUSDCAddress 11155420 = Except.ok ("0x5fd84259d66Cd46123540766Be93DFE6D43130D7")
    ∧ ("0x5fd84259d66Cd46123540766Be93DFE6D43130D7" : String) ≠ ""
    ∧ 11155420 ∈ supportedChainIds := by
  exact ⟨by rfl, by rfl, by decide, by decide⟩

/-! ## Amount sanitizer (`BalanceFigma`, part_000 lines 544-568) -/

/-- The characters `sanitizeAmountInput` keeps: `value.replace(/[^0-9.]/g, '')`. -/
def keepChar (c : Char) : Bool := c.isDigit || c = '.'

/-- JavaScript `split('.')` on a character list: one (possibly empty) part
per gap between decimal points. -/
def splitDot : List Char → List (List Char)
  | [] => [[]]
  | c :: cs =>
    match splitDot cs with
    | [] => [[]]
    | p :: ps => if c = '.' then [] :: p :: ps else (c :: p) :: ps

/-- The `parts` local of `sanitizeAmountInput`: the kept characters split on
the decimal point. -/
def sanitizeParts (value : List Char) : List (List Char) :=
  splitDot (value.filter keepChar)

/-- `sanitizeAmountInput` on character lists.  The source first collapses
extra decimal points (`parts[0] + '.' + parts.slice(1).join('')`, applied
when `parts.length > 2`) and then truncates to 6 fractional digits — but
the truncation is guarded by `parts.length === 2` on the pre-join split, so
it applies only when the kept input had exactly one decimal point. -/
def sanitizeList (value : List Char) : List Char :=
  if (sanitizeParts value).length = 2 ∧ 6 < ((sanitizeParts value).getD 1 []).length
  then ((sanitizeParts value).getD 0 []) ++ '.' :: (((sanitizeParts value).getD 1 []).take 6)
  else if 2 < (sanitizeParts value).length
  then ((sanitizeParts value).getD 0 []) ++ '.' :: ((sanitizeParts value).drop 1).flatten
  else value.filter keepChar

/-- `sanitizeAmountInput` on strings. -/
def sanitizeAmountInput (value : String) : String :=
  ⟨sanitizeList value.data⟩

/-- The number of characters after the first decimal point. -/
def fracDigits (s : List Char) : Nat :=
  ((s.dropWhile (fun c => c ≠ '.')).drop 1).length

theorem splitDot_ne_nil : ∀ l : List Char, splitDot l ≠ [] := by
  intro l
  cases l with
  | nil => simp [splitDot]
  | cons c cs =>
    simp only [splitDot]
    split
    · simp
    · split <;> simp

theorem mem_splitDot : ∀ (l : List Char), ∀ part ∈ splitDot l, ∀ c ∈ part, c ∈ l ∧ c ≠ '.' := by
  intro l
  induction l with
  | nil =>
    intro part hp c hc
    simp [splitDot] at hp
    subst hp; cases hc
  | cons d ds ih =>
    intro part hp c hc
    simp only [splitDot] at hp
    split at hp
    · next heq => exact absurd heq (splitDot_ne_nil ds)
    · next p ps heq =>
      by_cases hd : d = '.'
      · rw [if_pos hd] at hp
        rcases List.mem_cons.mp hp with h | h
        · subst h; cases hc
        · have h2 := ih part (heq ▸ h) c hc
          exact ⟨List.mem_cons_of_mem d h2.1, h2.2⟩
      · rw [if_neg hd] at hp
        rcases List.mem_cons.mp hp with h | h
        · subst h
          rcases List.mem_cons.mp hc with h2 | h2
          · subst h2; exact ⟨List.mem_cons_self c ds, hd⟩
          · have h3 := ih p (heq ▸ List.mem_cons_self p ps) c h2
            exact ⟨List.mem_cons_of_mem d h3.1, h3.2⟩
        · have h3 := ih part (heq ▸ List.mem_cons_of_mem p h) c hc
          exact ⟨List.mem_cons_of_mem d h3.1, h3.2⟩

theorem length_splitDot : ∀ l : List Char, (splitDot l).length = l.count '.' + 1 := by
  intro l
  induction l with
  | nil => simp [splitDot]
  | cons d ds ih =>
    simp only [splitDot]
    split
    · next heq => exact absurd heq (splitDot_ne_nil ds)
    · next p ps heq =>
      by_cases hd : d = '.'
      · rw [if_pos hd]
        subst hd
        have h2 : (p :: ps).length = ds.count '.' + 1 := heq ▸ ih
        simp only [List.length_cons] at h2 ⊢
        simp only [List.count_cons_self]
        omega
      · rw [if_neg hd]
        have h2 : (p :: ps).length = ds.count '.' + 1 := heq ▸ ih
        have h3 : (d :: ds).count '.' = ds.count '.' :=
          List.count_cons_of_ne (fun h => hd h.symm) ds
        simp only [List.length_cons] at h2 ⊢
        omega

theorem splitDot_of_count_zero : ∀ l : List Char, l.count '.' = 0 → splitDot l = [l] := by
  intro l
  induction l with
  | nil => intro _; rfl
  | cons d ds ih =>
    intro h
    have hd : d ≠ '.' := by
      intro hd; subst hd; simp [List.count_cons_self] at h
    have hds : ds.count '.' = 0 := by
      rw [List.count_cons_of_ne (fun h2 => hd h2.symm) ds] at h
      exact h
    simp only [splitDot, ih hds]
    simp [hd]

theorem splitDot_of_count_one : ∀ l : List Char, l.count '.' = 1 →
    ∃ a b, splitDot l = [a, b] ∧ l = a ++ '.' :: b
      ∧ a.count '.' = 0 ∧ b.count '.' = 0 := by
  intro l
  induction l with
  | nil => intro h; simp at h
  | cons d ds ih =>
    intro h
    by_cases hd : d = '.'
    · subst hd
      have hds : ds.count '.' = 0 := by
        have := List.count_cons_self '.' ds ▸ h
        omega
      refine ⟨[], ds, ?_, by simp, by simp, hds⟩
      simp only [splitDot, splitDot_of_count_zero ds hds]
      simp
    · have hds : ds.count '.' = 1 := by
        rw [List.count_cons_of_ne (fun h2 => hd h2.symm) ds] at h
        exact h
      rcases ih hds with ⟨a, b, hsp, heq, ha, hb⟩
      refine ⟨d :: a, b, ?_, by rw [heq]; rfl, ?_, hb⟩
      · simp only [splitDot, hsp]
        simp [hd]
      · rw [List.count_cons_of_ne (fun h2 => hd h2.symm) a]
        exact ha

theorem dropWhile_append_dot (b : List Char) :
    ∀ a : List Char, '.' ∉ a →
    (a ++ '.' :: b).dropWhile (fun c => c ≠ '.') = '.' :: b := by
  intro a
  induction a with
  | nil => intro _; simp [List.dropWhile]
  | cons x xs ih =>
    intro ha
    have hx : x ≠ '.' := fun h => ha (h ▸ List.mem_cons_self x xs)
    rw [List.cons_append, List.dropWhile_cons]
    simp only [hx, ne_eq, not_false_eq_true, decide_True, if_true]
    exact ih (fun h => ha (List.mem_cons_of_mem x h))

theorem dropWhile_no_dot : ∀ s : List Char, '.' ∉ s →
    s.dropWhile (fun c => c ≠ '.') = [] := by
  intro s
  induction s with
  | nil => intro _; rfl
  | cons x xs ih =>
    intro hs
    have hx : x ≠ '.' := fun h => hs (h ▸ List.mem_cons_self x xs)
    rw [List.dropWhile_cons]
    simp only [hx, ne_eq, not_false_eq_true, decide_True, if_true]
    exact ih (fun h => hs (List.mem_cons_of_mem x h))

theorem sanitizeList_props (value : List Char) :
    (∀ c ∈ sanitizeList value, c.isDigit ∨ c = '.')
    ∧ (sanitizeList value).count '.' ≤ 1
    ∧ (value.count '.' ≤ 1 → fracDigits (sanitizeList value) ≤ 6) := by
  have hs1chars : ∀ c ∈ value.filter keepChar, (c.isDigit ∨ c = '.') := by
    intro c hc
    have hk := List.of_mem_filter hc
    simp only [keepChar, Bool.or_eq_true, decide_eq_true_eq] at hk
    exact hk.imp id id
  have hcount : (value.filter keepChar).count '.' = value.count '.' := by
    simp [keepChar, List.count_filter]
  have hmemparts : ∀ part ∈ splitDot (value.filter keepChar), ∀ c ∈ part,
      (c.isDigit ∨ c = '.') ∧ c ≠ '.' := by
    intro part hp c hc
    have h2 := mem_splitDot (value.filter keepChar) part hp c hc
    exact ⟨hs1chars c h2.1, h2.2⟩
  rcases hc3 : (value.filter keepChar).count '.' with _ | n
  · -- zero dots
    have hsp := splitDot_of_count_zero (value.filter keepChar) hc3
    have hout : sanitizeList value = value.filter keepChar := by
      simp only [sanitizeList, sanitizeParts, hsp]
      simp
    rw [hout]
    refine ⟨hs1chars, by omega, fun _ => ?_⟩
    have hnd : '.' ∉ value.filter keepChar := by
      rw [← List.count_eq_zero]; exact hc3
    unfold fracDigits
    rw [dropWhile_no_dot _ hnd]
    simp
  · rcases n with _ | m
    · -- exactly one dot
      rcases splitDot_of_count_one (value.filter keepChar) hc3 with ⟨a, b, hsp, heqs, ha, hb⟩
      have hnda : '.' ∉ a := by rw [← List.count_eq_zero]; exact ha
      have hndb : '.' ∉ b := by rw [← List.count_eq_zero]; exact hb
      have hamem : a ∈ splitDot (value.filter keepChar) := by
        rw [hsp]; exact List.mem_cons_self a [b]
      have hbmem : b ∈ splitDot (value.filter keepChar) := by
        rw [hsp]; exact List.mem_cons_of_mem a (List.mem_cons_self b [])
      by_cases h6 : 6 < b.length
      · have hout : sanitizeList value = a ++ '.' :: b.take 6 := by
          simp only [sanitizeList, sanitizeParts, hsp]
          simp [h6]
        rw [hout]
        refine ⟨?_, ?_, fun _ => ?_⟩
        · intro c hcmem
          rcases List.mem_append.mp hcmem with h | h
          · exact (hmemparts a hamem c h).1
          · rcases List.mem_cons.mp h with h2 | h2
            · exact Or.inr h2
            · exact (hmemparts b hbmem c (List.take_subset 6 b h2)).1
        · rw [List.count_append, List.count_cons_self]
          have hta : a.count '.' = 0 := ha
          have htb : (b.take 6).count '.' = 0 := by
            rw [List.count_eq_zero]
            exact fun h => hndb (List.take_subset 6 b h)
          omega
        · unfold fracDigits
          rw [dropWhile_append_dot _ a hnda]
          simp [List.length_take]
      · have hout : sanitizeList value = value.filter keepChar := by
          simp only [sanitizeList, sanitizeParts, hsp]
          simp [h6]
        rw [hout]
        refine ⟨hs1chars, by omega, fun _ => ?_⟩
        unfold fracDigits
        rw [heqs, dropWhile_append_dot _ a hnda]
        simp
        omega
    · -- two or more dots
      have hlen : 2 < (splitDot (value.filter keepChar)).length := by
        rw [length_splitDot, hc3]
        omega
      rcases hsp : splitDot (value.filter keepChar) with _ | ⟨p, ps⟩
      · exact absurd hsp (splitDot_ne_nil _)
      have hpmem : p ∈ splitDot (value.filter keepChar) := by
        rw [hsp]; exact List.mem_cons_self p ps
      have hout : sanitizeList value = p ++ '.' :: ps.flatten := by
        simp only [sanitizeList, sanitizeParts, hsp]
        rw [hsp] at hlen
        simp only [List.length_cons] at hlen
        have hne1 : ps.length ≠ 1 := by omega
        have hgt : 2 < ps.length + 1 := hlen
        simp [hne1, hgt]
      rw [hout]
      have hflat : ∀ c ∈ ps.flatten, (c.isDigit ∨ c = '.') ∧ c ≠ '.' := by
        intro c hcmem
        rcases List.mem_flatten.mp hcmem with ⟨part, hpart, hcpart⟩
        exact hmemparts part (hsp ▸ List.mem_cons_of_mem p hpart) c hcpart
      refine ⟨?_, ?_, fun hv => ?_⟩
      · intro c hcmem
        rcases List.mem_append.mp hcmem with h | h
        · exact (hmemparts p hpmem c h).1
        · rcases List.mem_cons.mp h with h2 | h2
          · exact Or.inr h2
          · exact (hflat c h2).1
      · rw [List.count_append, List.count_cons_self]
        have htp : p.count '.' = 0 := by
          rw [List.count_eq_zero]
          exact fun h => (hmemparts p hpmem '.' h).2 rfl
        have htf : ps.flatten.count '.' = 0 := by
          rw [List.count_eq_zero]
          exact fun h => (hflat '.' h).2 rfl
        omega
      · rw [hcount] at hc3
        omega

/-! ### Claim C9 -/

/-- C9, counterexample.  "12.345678" has exactly 6 fractional digits, so the
sanitizer returns it unchanged rather than producing the claimed "12.3456";
moreover an input with a second decimal point escapes the 6-digit
truncation entirely, because that branch tests `parts.length === 2` on the
pre-join split. -/
theorem c9_sanitize_not_as_claimed :
    sanitizeAmountInput ("12.345678") = ("12.345678" : String)
    ∧ sanitizeAmountInput ("12.345678") ≠ ("12.3456" : String)
    ∧ 6 < fracDigits (sanitizeAmountInput ("1.2.3456789")).data := by
  exact ⟨by decide, by decide, by decide⟩

/-- C9, amended.  The sanitizer leaves "12.345678" unchanged (it already has
exactly 6 fractional digits; "12.3456789" is what truncates to
"12.345678"); for every input string the output contains only digits and at
most one decimal point, and when the input contains at most one decimal
point the output has at most 6 fractional digits. -/
theorem c9_sanitize_amended (value : String) :
    (∀ c ∈ (sanitizeAmountInput value).data, c.isDigit ∨ c = '.')
    ∧ (sanitizeAmountInput value).data.count '.' ≤ 1
    ∧ (value.data.count '.' ≤ 1 → fracDigits (sanitizeAmountInput value).data ≤ 6)
    ∧ sanitizeAmountInput ("12.345678") = ("12.345678" : String)
    ∧ sanitizeAmountInput ("12.3456789") = ("12.345678" : String) := by
  have h := sanitizeList_props value.data
  exact ⟨h.1, h.2.1, h.2.2, by decide, by decide⟩

/-- C9 witness: a one-dot input with seven fractional digits and junk
characters is cut to six fractional digits. -/
theorem c9_sanitize_amended_witness :
    (("9.1234567x" : String).data.count '.' ≤ 1)
    ∧ fracDigits (sanitizeAmountInput ("9.1234567x")).data ≤ 6
    ∧ sanitizeAmountInput ("9.1234567x") = ("9.123456" : String) :=
  ⟨by decide, (c9_sanitize_amended ("9.1234567x")).2.2.1 (by decide), by decide⟩

/-! ## Deposit orchestrator (`BalanceFigma`, part_000 lines 514-1873)

The component drives the deposit flow with React state (`depositStep`), two
wagmi write hooks (`writeUSDC` for the ERC-20 approval, `writeVault` for
the vault deposit), their receipt watchers, and two `useEffect` blocks that
react to write results and receipts.  The embedding is an event-driven
transition system: each event is one external stimulus (a click, a wallet
callback, a receipt, a resolving promise), and its handler performs the
state updates of the corresponding source handler together with the
effect-block reactions that fire on the resulting render, run to
completion.  Asynchronous continuations — the oracle request made inside
`handleConfirmDeposit` and the `refetchAllowance().then(...)` callback of
the MetaMask-simulation-error recovery — stay in flight across events and
are delivered by their own events, exactly as promises resolve in the
source.  The withdraw flow is never started, so its branches in the shared
effects are unreachable and omitted. -/

inductive DepositStep
  | input
  | approving
  | depositing
  | confirming
  | error
deriving DecidableEq, Repr

/-- Error classes distinguished by the write-error effects:
`isUserRejection`, `isMetaMaskSimulationError` (message containing
'Internal JSON-RPC error' or '-32603'), or anything else. -/
inductive ErrKind
  | rejection
  | simulation
  | other
deriving DecidableEq, Repr

/-- Client-side state of one wagmi `useWriteContract` hook together with
its `useWaitForTransactionReceipt` watcher: `pending` is `isPending` (no
hash yet), `errored` is a submission failure (no hash exists),
`awaitingReceipt` is a hash whose receipt is still loading. -/
inductive WriteStatus
  | idle
  | pending
  | errored (k : ErrKind)
  | awaitingReceipt
  | receiptSuccess
  | receiptFailure
deriving DecidableEq, Repr

/-- The user-facing error message finally left in `errorMessage` after all
effects of an event have run. -/
inductive Msg
  | noMsg
  | cancelledInWallet
  | cleanedRaw
  | checkExplorer
  | approvalReverted
  | depositReverted
  | oracleOrSetup
deriving DecidableEq, Repr

/-- The oracle's signed balance snapshot (`getDepositSignature` response);
uint256 fields, addresses and the signature are modelled as naturals. -/
structure Snapshot where
  balance : Nat
  nonce : Nat
  deadline : Nat
  assets : Nat
  receiver : Nat
  signature : Nat
deriving DecidableEq, Repr

/-- A vault write submitted through `writeVault`: either
`deposit(assets, receiver)` or
`depositWithExtraInfoViaSignature(assets, receiver, snapshot, signature)`. -/
inductive DepositCall
  | plain (assets receiver : Nat)
  | withSig (assets receiver : Nat) (snap : Snapshot)
deriving DecidableEq, Repr

structure OrchState where
  /-- `depositStep`. -/
  step : DepositStep
  /-- the approval write hook (`writeUSDC` and its receipt watcher). -/
  usdc : WriteStatus
  /-- the vault write hook (`writeVault` and its receipt watcher). -/
  vault : WriteStatus
  /-- the on-chain allowance of the vault, as the next read will report it. -/
  allowance : Nat
  /-- `depositAmount` parsed to smallest units; `0` encodes empty/invalid
  (`isValidAmount` accepts only finite positive numbers). -/
  amount : Nat
  /-- the connected wallet `address`. -/
  user : Nat
  /-- `getDepositSignature` promises in flight. -/
  oracleRequests : Nat
  /-- `refetchAllowance().then(...)` recovery callbacks in flight. -/
  recheckRequests : Nat
  /-- number of `writeUSDC` approval submissions so far. -/
  usdcCalls : Nat
  /-- log of `writeVault` submissions so far. -/
  vaultCalls : List DepositCall
  /-- the currently displayed `errorMessage`. -/
  errMsg : Msg
deriving DecidableEq, Repr

/-- `type(uint256).max`, the allowance requested by every approval. -/
def maxAllowance : Nat := 2 ^ 256 - 1

/-- `hasEnoughAllowance`: false on a missing/zero allowance read (`0n` is
falsy), an empty or invalid amount, or an allowance below the amount. -/
def hasEnoughAllowance (s : OrchState) : Bool :=
  decide (s.allowance ≠ 0 ∧ s.amount ≠ 0 ∧ s.amount ≤ s.allowance)

/-- `handleConfirmDeposit` up to its first await: the guard
(`!address || !chainId || !depositAmount`, `isValidAmount`), then
`resetVaultWrite()`, `setDepositStep('depositing')` and the oracle request.
The vault write itself is issued later by the continuation, when the
oracle's promise resolves (`Ev.oracleOk` / `Ev.oracleErr`). -/
def confirmDeposit (s : OrchState) : OrchState :=
  if s.amount = 0 then s
  else { s with vault := WriteStatus.idle, step := DepositStep.depositing,
                oracleRequests := s.oracleRequests + 1 }

/-- `handleApproveUSDC`: the same guard, then `resetUSDCWrite()`,
`setDepositStep('approving')` and the `writeUSDC` approval submission for
`type(uint256).max`. -/
def approveUSDC (s : OrchState) : OrchState :=
  if s.amount = 0 then s
  else { s with usdc := WriteStatus.pending, step := DepositStep.approving,
                usdcCalls := s.usdcCalls + 1 }

/-- The external events driving the orchestrator. -/
inductive Ev
  /-- typing in the amount field (already sanitized and parsed). -/
  | enterAmount (a : Nat)
  /-- the input-step Confirm button: `handleInitiateDeposit`. -/
  | initiate
  /-- the approving-step Confirm button: `handleConfirmDeposit`, disabled
  while `isUSDCPending || isUSDCTxLoading`. -/
  | confirmClick
  /-- the wallet accepted the approval submission: `usdcTxHash` exists. -/
  | usdcWalletOk
  /-- the approval submission failed: `usdcWriteError`. -/
  | usdcWalletErr (k : ErrKind)
  /-- the approval receipt settled: `isUSDCTxSuccess` / `isUSDCTxError`. -/
  | usdcReceipt (ok : Bool)
  /-- a `getDepositSignature` promise resolved with a snapshot. -/
  | oracleOk (snap : Snapshot)
  /-- a `getDepositSignature` promise rejected (oracle unreachable). -/
  | oracleErr
  /-- the wallet accepted the vault submission: `vaultTxHash` exists. -/
  | vaultWalletOk
  /-- the vault submission failed: `vaultWriteError`. -/
  | vaultWalletErr (k : ErrKind)
  /-- the vault receipt settled: `isVaultTxSuccess` / `isVaultTxError`. -/
  | vaultReceipt (ok : Bool)
  /-- a `refetchAllowance().then(...)` recovery callback fired; it reads the
  current on-chain allowance. -/
  | recheckDone
  /-- the error-step Try Again button: `handleRetry`. -/
  | retryClick
  /-- `handleCancel`: back to the balance view, amounts cleared. -/
  | cancelClick
deriving DecidableEq, Repr

/-- One event of the orchestrator, with the effect blocks that react to it
run to completion (both `useEffect` blocks fire on the same render and the
second one's assignments land last). -/
def orchStep (s : OrchState) (e : Ev) : OrchState :=
  match e with
  | Ev.enterAmount a =>
      if s.step = DepositStep.input then { s with amount := a } else s
  | Ev.initiate =>
      if s.step = DepositStep.input ∧ s.amount ≠ 0 then
        if hasEnoughAllowance s then confirmDeposit s else approveUSDC s
      else s
  | Ev.confirmClick =>
      if s.step = DepositStep.approving ∧ s.usdc ≠ WriteStatus.pending
          ∧ s.usdc ≠ WriteStatus.awaitingReceipt then
        confirmDeposit s
      else s
  | Ev.usdcWalletOk =>
      if s.usdc = WriteStatus.pending then
        { s with usdc := WriteStatus.awaitingReceipt }
      else s
  | Ev.usdcWalletErr k =>
      if s.usdc = WriteStatus.pending then
        if s.step = DepositStep.approving then
          match k with
          | ErrKind.rejection =>
              { s with usdc := WriteStatus.errored k, step := DepositStep.error,
                       errMsg := Msg.cancelledInWallet }
          | ErrKind.simulation =>
              { s with usdc := WriteStatus.errored k, step := DepositStep.error,
                       errMsg := Msg.cleanedRaw,
                       recheckRequests := s.recheckRequests + 1 }
          | ErrKind.other =>
              { s with usdc := WriteStatus.errored k, step := DepositStep.error,
                       errMsg := Msg.cleanedRaw }
        else { s with usdc := WriteStatus.errored k }
      else s
  | Ev.usdcReceipt ok =>
      if s.usdc = WriteStatus.awaitingReceipt then
        if ok then
          let s1 := { s with usdc := WriteStatus.receiptSuccess,
                             allowance := maxAllowance }
          if s1.step = DepositStep.approving then confirmDeposit s1 else s1
        else
          if s.step = DepositStep.approving then
            { s with usdc := WriteStatus.receiptFailure,
                     step := DepositStep.error, errMsg := Msg.approvalReverted }
          else { s with usdc := WriteStatus.receiptFailure }
      else s
  | Ev.oracleOk snap =>
      if s.oracleRequests ≠ 0 then
        { s with oracleRequests := s.oracleRequests - 1,
                 vault := WriteStatus.pending,
                 vaultCalls := s.vaultCalls ++
                   [if snap.balance = 0 then DepositCall.plain s.amount s.user
                    else DepositCall.withSig s.amount s.user snap] }
      else s
  | Ev.oracleErr =>
      if s.oracleRequests ≠ 0 then
        { s with oracleRequests := s.oracleRequests - 1,
                 step := DepositStep.error, errMsg := Msg.oracleOrSetup }
      else s
  | Ev.vaultWalletOk =>
      if s.vault = WriteStatus.pending then
        { s with vault := WriteStatus.awaitingReceipt }
      else s
  | Ev.vaultWalletErr k =>
      if s.vault = WriteStatus.pending then
        if s.step = DepositStep.depositing then
          { s with vault := WriteStatus.errored k, step := DepositStep.error,
                   errMsg := match k with
                             | ErrKind.rejection => Msg.cancelledInWallet
                             | _ => Msg.cleanedRaw }
        else { s with vault := WriteStatus.errored k }
      else s
  | Ev.vaultReceipt ok =>
      if s.vault = WriteStatus.awaitingReceipt then
        if ok then
          if s.step = DepositStep.depositing ∨ s.step = DepositStep.error then
            { s with vault := WriteStatus.receiptSuccess,
                     step := DepositStep.confirming }
          else { s with vault := WriteStatus.receiptSuccess }
        else
          if s.step = DepositStep.depositing then
            { s with vault := WriteStatus.receiptFailure,
                     step := DepositStep.error, errMsg := Msg.depositReverted }
          else { s with vault := WriteStatus.receiptFailure }
      else s
  | Ev.recheckDone =>
      if s.recheckRequests ≠ 0 then
        let s1 := { s with recheckRequests := s.recheckRequests - 1 }
        if s1.allowance ≠ 0 then confirmDeposit s1
        else { s1 with step := DepositStep.error, errMsg := Msg.checkExplorer }
      else s
  | Ev.retryClick =>
      if s.step = DepositStep.error then
        { s with step := DepositStep.input, errMsg := Msg.noMsg }
      else s
  | Ev.cancelClick =>
      { s with step := DepositStep.input, amount := 0, errMsg := Msg.noMsg }

/-- A fresh session: input step, idle hooks, a given pre-existing on-chain
allowance for the connected user. -/
def initState (allowance0 user : Nat) : OrchState where
  step := DepositStep.input
  usdc := WriteStatus.idle
  vault := WriteStatus.idle
  allowance := allowance0
  amount := 0
  user := user
  oracleRequests := 0
  recheckRequests := 0
  usdcCalls := 0
  vaultCalls := []
  errMsg := Msg.noMsg

def runTrace (s : OrchState) (t : List Ev) : OrchState := t.foldl orchStep s

/-- A snapshot whose attested cross-chain balance is zero. -/
def snapZero : Snapshot := ⟨0, 7, 5000, 10, 99, 1234⟩

/-- A snapshot with a positive attested cross-chain balance. -/
def snapPos : Snapshot := ⟨250, 8, 5000, 10, 99, 4321⟩

/-- A state in the depositing step with one oracle request in flight. -/
def stateOracle1 : OrchState :=
  { initState 5 99 with step := DepositStep.depositing, amount := 10,
                        oracleRequests := 1 }

/-! ### Claim C6 -/

/-- C6.  When an oracle snapshot resolves, exactly one vault write is
issued: the plain `deposit(amount, receiver)` when the attested cross-chain
balance is zero, and otherwise the signature variant carrying the full
snapshot tuple and its signature; the write enters the wallet-pending
state. -/
theorem c6_snapshot_dispatch (s : OrchState) (snap : Snapshot)
    (h : s.oracleRequests ≠ 0) :
    (orchStep s (Ev.oracleOk snap)).vaultCalls
      = s.vaultCalls ++ [if snap.balance = 0 then DepositCall.plain s.amount s.user
                         else DepositCall.withSig s.amount s.user snap]
    ∧ (orchStep s (Ev.oracleOk snap)).vault = WriteStatus.pending := by
  constructor <;> simp [orchStep, h]

/-- C6 witness: a zero-balance snapshot produces the plain deposit and a
positive-balance snapshot produces the signature variant. -/
theorem c6_snapshot_dispatch_witness :
    (stateOracle1.oracleRequests ≠ 0)
    ∧ (orchStep stateOracle1 (Ev.oracleOk snapZero)).vaultCalls
        = [DepositCall.plain 10 99]
    ∧ (orchStep stateOracle1 (Ev.oracleOk snapPos)).vaultCalls
        = [DepositCall.withSig 10 99 snapPos] := by
  refine ⟨by decide, ?_, ?_⟩
  · have h := (c6_snapshot_dispatch stateOracle1 snapZero (by decide)).1
    rw [h]; decide
  · have h := (c6_snapshot_dispatch stateOracle1 snapPos (by decide)).1
    rw [h]; decide

/-! ### Claim C7 -/

/-- C7, counterexample.  An attempt that needed an approval submits it and
sees it confirm before the oracle request is even made; when the oracle
then fails, the attempt transitions to error with one approval write
already submitted — contradicting that no approval write is submitted for
an attempt whose snapshot request fails. -/
theorem c7_approval_precedes_oracle_failure :
    (runTrace (initState 5 99)
      [Ev.enterAmount 10, Ev.initiate, Ev.usdcWalletOk, Ev.usdcReceipt true,
       Ev.oracleErr]).step = DepositStep.error
    ∧ (runTrace (initState 5 99)
      [Ev.enterAmount 10, Ev.initiate, Ev.usdcWalletOk, Ev.usdcReceipt true,
       Ev.oracleErr]).usdcCalls = 1
    ∧ (runTrace (initState 5 99)
      [Ev.enterAmount 10, Ev.initiate, Ev.usdcWalletOk, Ev.usdcReceipt true,
       Ev.oracleErr]).vaultCalls = [] := by
  exact ⟨by decide, by decide, by decide⟩

/-- C7, amended.  When an oracle snapshot request fails, the attempt
transitions to the error step and the failure handling itself submits
nothing: neither the approval-write count nor the vault-write log changes
at that event, so the deposit write of this request is never issued (an
approval required by the attempt may however already have been submitted
and confirmed before the oracle was consulted). -/
theorem c7_oracle_failure_aborts (s : OrchState) (h : s.oracleRequests ≠ 0) :
    (orchStep s Ev.oracleErr).step = DepositStep.error
    ∧ (orchStep s Ev.oracleErr).vaultCalls = s.vaultCalls
    ∧ (orchStep s Ev.oracleErr).usdcCalls = s.usdcCalls
    ∧ (orchStep s Ev.oracleErr).errMsg = Msg.oracleOrSetup := by
  refine ⟨?_, ?_, ?_, ?_⟩ <;> simp [orchStep, h]

/-- C7 witness: the oracle failing on a pending request in the depositing
step yields the error step with no writes recorded. -/
theorem c7_oracle_failure_aborts_witness :
    (stateOracle1.oracleRequests ≠ 0)
    ∧ (orchStep stateOracle1 Ev.oracleErr).step = DepositStep.error
    ∧ (orchStep stateOracle1 Ev.oracleErr).vaultCalls = [] := by
  refine ⟨by decide, (c7_oracle_failure_aborts stateOracle1 (by decide)).1, ?_⟩
  rw [(c7_oracle_failure_aborts stateOracle1 (by decide)).2.1]
  decide

/-! ### Claims C2, C3, C4 — failing traces

All three traces start from a session whose pre-existing on-chain allowance
is 5 smallest units while the user deposits 10, so the approval path is
taken.  The wallet reports the known simulation-error signature on the
approval submission, which makes the error effect start a
`refetchAllowance().then(...)` recovery callback; that callback has no
guard on the current step or on the write hooks, and may resolve late. -/

/-- C2 trace: approval fails with the simulation signature (recovery
callback started), the user retries and submits a second approval, the
wallet accepts it (hash exists, receipt loading) — and then the stale
recovery callback resolves with the unchanged positive allowance and runs
`handleConfirmDeposit`, entering the depositing step and submitting the
vault write while the approval is merely wallet-submitted, not
confirmed. -/
def traceC2 : List Ev :=
  [Ev.enterAmount 10, Ev.initiate, Ev.usdcWalletErr ErrKind.simulation,
   Ev.retryClick, Ev.initiate, Ev.usdcWalletOk, Ev.recheckDone,
   Ev.oracleOk snapZero]

/-- C2.  Evaluation of the orchestrator on the failing trace: after the
stale allowance-recheck callback fires, the machine is in the depositing
step while the approval transaction is submitted-but-unconfirmed
(`awaitingReceipt`), and the subsequent oracle response submits the vault
deposit write with the approval still unconfirmed — the transition
`approving → depositing` was triggered without a confirmed approval. -/
theorem c2_deposit_before_approval_confirms :
    (runTrace (initState 5 99) (traceC2.take 7)).usdc = WriteStatus.awaitingReceipt
    ∧ (runTrace (initState 5 99) (traceC2.take 7)).step = DepositStep.depositing
    ∧ (runTrace (initState 5 99) traceC2).usdc = WriteStatus.awaitingReceipt
    ∧ (runTrace (initState 5 99) traceC2).vaultCalls = [DepositCall.plain 10 99] := by
  exact ⟨by decide, by decide, by decide, by decide⟩

/-- C3 trace: as in the C2 trace, but the second approval confirms
on-chain, so `handleConfirmDeposit` runs and submits a vault deposit write,
which the wallet accepts (awaiting its receipt).  Then the stale recovery
callback re-invokes `handleConfirmDeposit` while that deposit write is in
flight, and the new oracle response submits a second vault deposit write
for the same attempt. -/
def traceC3pre : List Ev :=
  [Ev.enterAmount 10, Ev.initiate, Ev.usdcWalletErr ErrKind.simulation,
   Ev.retryClick, Ev.initiate, Ev.usdcWalletOk, Ev.usdcReceipt true,
   Ev.oracleOk snapZero, Ev.vaultWalletOk]

def traceC3 : List Ev := traceC3pre ++ [Ev.recheckDone, Ev.oracleOk snapZero]

/-- C3.  Evaluation of the orchestrator on the failing trace: at the moment
the stale recovery callback re-invokes `handleConfirmDeposit`, one vault
deposit write is submitted and awaiting its receipt; after the re-invocation
and the new oracle response, a second vault deposit write has been
submitted for the same attempt. -/
theorem c3_second_deposit_submission :
    (runTrace (initState 5 99) traceC3pre).vault = WriteStatus.awaitingReceipt
    ∧ (runTrace (initState 5 99) traceC3pre).vaultCalls = [DepositCall.plain 10 99]
    ∧ (runTrace (initState 5 99) traceC3).vaultCalls
        = [DepositCall.plain 10 99, DepositCall.plain 10 99] := by
  exact ⟨by decide, by decide, by decide⟩

/-- C4 trace: the approval fails with the simulation signature and the
recovery callback then resolves with the on-chain allowance unchanged at 5
— positive, but below the requested amount 10. -/
def traceC4 : List Ev :=
  [Ev.enterAmount 10, Ev.initiate, Ev.usdcWalletErr ErrKind.simulation,
   Ev.recheckDone]

/-- C4.  Evaluation of the orchestrator at the failing input: the recovery
re-reads the allowance and finds it unchanged at 5, below the requested
deposit amount of 10 — the approval cannot have succeeded — yet because the
code tests only `newAllowance > 0` it proceeds to the depositing step
instead of transitioning to error with the block-explorer message. -/
theorem c4_recovery_accepts_insufficient_allowance :
    (runTrace (initState 5 99) traceC4).step = DepositStep.depositing
    ∧ (runTrace (initState 5 99) traceC4).allowance = 5
    ∧ (runTrace (initState 5 99) traceC4).amount = 10
    ∧ (runTrace (initState 5 99) traceC4).errMsg ≠ Msg.checkExplorer := by
  exact ⟨by decide, by decide, by decide, by decide⟩
